import Mathlib

/-
Shallow embedding of `src/sub2srt.py` (a Sub → SRT subtitle converter).
Python strings are modelled as `List Char`; Python exceptions are modelled
by `Option`/`Except` results.  Each definition below is translated from the
named source function or statement.
-/

set_option maxHeartbeats 1000000

/-- Python's whitespace class (`\s`, and the default `str.strip` set) restricted
to ASCII: space, tab, newline, carriage return, vertical tab, form feed. -/
def isSpace (c : Char) : Bool :=
  c = ' ' || c = '\t' || c = '\n' || c = '\r' || c = '\x0B' || c = '\x0C'

/-- Model of Python `str.strip()`: drop leading and trailing whitespace. -/
def pyStrip (l : List Char) : List Char :=
  ((l.dropWhile isSpace).reverse.dropWhile isSpace).reverse

/-- Model of Python `str.split(sep)` for a one-character separator: split at
every occurrence of `sep`, keeping empty pieces (`"".split(s) = [""]`). -/
def pySplit (sep : Char) : List Char → List (List Char)
  | [] => [[]]
  | c :: rest =>
    if c = sep then
      [] :: pySplit sep rest
    else
      match pySplit sep rest with
      | [] => [[c]]
      | p :: ps => (c :: p) :: ps

/-- Model of Python `str.split(sep, 1)`: split at the first occurrence of
`sep` only, producing one piece when `sep` is absent and two otherwise. -/
def pySplitOnce (sep : Char) (l : List Char) : List (List Char) :=
  match l.dropWhile (fun c => c ≠ sep) with
  | [] => [l.takeWhile (fun c => c ≠ sep)]
  | _ :: rest => [l.takeWhile (fun c => c ≠ sep), rest]

/-- Model of Python `str.ljust(n, fill)`: pad on the right up to length `n`. -/
def pyLjust (n : Nat) (fill : Char) (l : List Char) : List Char :=
  l ++ List.replicate (n - l.length) fill

/-- Index of the last newline inside a list, if any (helper for the
`re.split(r"\n\s*\n", ...)` model: greedy `\s*` backtracks to the last
newline of the whitespace run). -/
def lastNewlinePos : List Char → Option Nat
  | [] => none
  | c :: rest =>
    match lastNewlinePos rest with
    | some k => some (k + 1)
    | none => if c = '\n' then some 0 else none

/-- Length of the leftmost match of the regex `\n\s*\n` at the head of the
list, if one starts there: a newline, then the longest whitespace run ending
in a newline. -/
def sepMatchLen (l : List Char) : Option Nat :=
  match l with
  | [] => none
  | c :: rest =>
    if c = '\n' then
      Option.map (fun k => k + 2) (lastNewlinePos (rest.takeWhile isSpace))
    else none

/-- Scanner for `re.split(r"\n\s*\n", content)`: cut at every leftmost
non-overlapping match, keeping the pieces (line 52 of the source).  The
fuel argument only bounds the recursion; every step consumes at least one
character, so fuel equal to the length of the text is always enough and
the fuel-exhausted arm is unreachable from `reSplit`. -/
def reSplitAux : Nat → List Char → List Char → List (List Char)
  | _, acc, [] => [acc.reverse]
  | 0, acc, l => [acc.reverse ++ l]
  | fuel + 1, acc, c :: rest =>
    match sepMatchLen (c :: rest) with
    | some n => acc.reverse :: reSplitAux fuel [] (List.drop n (c :: rest))
    | none => reSplitAux fuel (c :: acc) rest

/-- Model of `re.split(r"\n\s*\n", content)` from line 52 of the source. -/
def reSplit (content : List Char) : List (List Char) :=
  reSplitAux content.length [] content

/-- Model of Python `str(n)` for a natural number: decimal digits. -/
def natToChars (n : Nat) : List Char :=
  Nat.toDigits 10 n

/-- Translation of `format_time_str` (source lines 6-24): default the
fractional part to `"0000000"` when no `.` is present, split into
`hh:mm:ss.ms`, keep the first three fraction characters right-padded with
`'0'`, and rebuild `hh:mm:ss,mmm`.  A Python `ValueError` from either
unpacking assignment becomes `none`. -/
def format_time_str (time_str : List Char) : Option (List Char) :=
  let t := if '.' ∈ time_str then time_str
           else time_str ++ '.' :: ['0', '0', '0', '0', '0', '0', '0']
  match pySplit ':' t with
  | [hh, mm, ss_ms] =>
    match pySplit '.' ss_ms with
    | [ss, ms] => some (hh ++ ':' :: (mm ++ ':' :: (ss ++ ',' :: pyLjust 3 '0' (ms.take 3))))
    | _ => none
  | _ => none

/-- Translation of line 52 of the source: split the decoded content on blank
lines, strip every piece, and keep only the non-empty ones. -/
def subtitle_blocks (content : List Char) : List (List Char) :=
  ((reSplit content).map pyStrip).filter (fun b => !b.isEmpty)

/-- Result of handling one enumerated block in the loop of
`convert_single_sub_to_srt` (source lines 55-76): either a rendered SRT
block, a skip (the warning branch of lines 58-60), or a raised error
(comma-unpacking or time-format failure). -/
inductive BlockResult
  | ok : List Char → BlockResult
  | skip : BlockResult
  | fail : BlockResult
deriving DecidableEq

/-- Translation of the body of the loop at source lines 55-76 for one block:
split time line from text at the first newline, skip with a warning when
that yields fewer than two parts, split the time line on `,` into exactly
two stripped tokens, format both times, and render
`"{idx}\n{start} --> {end}\n{text}\n"`. -/
def parseBlock (idx : Nat) (block : List Char) : BlockResult :=
  match pySplitOnce '\n' block with
  | [time_line, text_lines] =>
    match pySplit ',' time_line with
    | [t1, t2] =>
      match format_time_str (pyStrip t1), format_time_str (pyStrip t2) with
      | some start_srt, some end_srt =>
        BlockResult.ok
          (natToChars idx ++ '\n' ::
            (start_srt ++ ' ' :: '-' :: '-' :: '>' :: ' ' ::
              (end_srt ++ '\n' :: (pyStrip text_lines ++ ['\n']))))
      | _, _ => BlockResult.fail
    | _ => BlockResult.fail
  | [] | [_] => BlockResult.skip
  | _ => BlockResult.fail

/-- Translation of the loop of source lines 54-76: process the enumerated
blocks starting at index `idx`, accumulating the rendered SRT blocks and
the `(index, first-50-chars preview)` data of every warning printed at line
59; a raised error anywhere aborts the whole loop (`none`). -/
def processBlocks : Nat → List (List Char) → Option (List (List Char) × List (Nat × List Char))
  | _, [] => some ([], [])
  | idx, block :: rest =>
    match parseBlock idx block with
    | BlockResult.ok srt =>
      match processBlocks (idx + 1) rest with
      | some (cs, ws) => some (srt :: cs, ws)
      | none => none
    | BlockResult.skip =>
      match processBlocks (idx + 1) rest with
      | some (cs, ws) => some (cs, (idx, block.take 50) :: ws)
      | none => none
    | BlockResult.fail => none

/-- Translation of the pure core of `convert_single_sub_to_srt` (source
lines 52-80): parse the decoded content into blocks, process them, and
join the rendered blocks with `"\n"`; `none` models a raised exception
caught at line 84 (file-level failure, no output written). -/
def convert_sub_content (content : List Char) : Option (List Char × List (Nat × List Char)) :=
  match processBlocks 1 (subtitle_blocks content) with
  | some (cs, ws) => some (List.intercalate ['\n'] cs, ws)
  | none => none

/-- First line of a rendered SRT block (everything before the first newline):
for a block emitted by the converter this is its decimal index. -/
def blockIndexLine (blk : List Char) : List Char :=
  blk.takeWhile (fun c => c ≠ '\n')

/-- Time line of a raw block: the part before the first newline (what
`block.split("\n", 1)[0]` yields at source line 57). -/
def timeLine (b : List Char) : List Char :=
  b.takeWhile (fun c => c ≠ '\n')

/-- A block that makes the loop of `convert_single_sub_to_srt` raise: it does
split into time line and text, but its comma split does not give two
formattable time tokens. -/
def blockFails (b : List Char) : Prop :=
  '\n' ∈ b ∧
    ∀ t1 t2, pySplit ',' (timeLine b) = [t1, t2] →
      format_time_str (pyStrip t1) = none ∨ format_time_str (pyStrip t2) = none

/-- The 1-based positions (starting at `idx`) of the blocks that are not
skipped by the loop, i.e. of the blocks that contain a newline. -/
def survivingIndices : Nat → List (List Char) → List Nat
  | _, [] => []
  | idx, b :: rest =>
    if '\n' ∈ b then idx :: survivingIndices (idx + 1) rest
    else survivingIndices (idx + 1) rest

/-- Outcome of one file conversion as reported by
`convert_single_sub_to_srt`: a success line with the written output and the
emitted warnings, or a failure line (source lines 82 and 85). -/
inductive FileOutcome
  | success : List Char → List (Nat × List Char) → FileOutcome
  | failure : FileOutcome
deriving DecidableEq

/-- Translation of the guarded region of `convert_single_sub_to_srt`
(source lines 42-85): everything inside the `try` is caught by the
catch-all `except`, so a read/decode error or any parse error yields a
reported failure rather than an escaping exception. -/
def convert_body (content : Except (List Char) (List Char)) : FileOutcome :=
  match content with
  | Except.error _ => FileOutcome.failure
  | Except.ok c =>
    match convert_sub_content c with
    | some (out, ws) => FileOutcome.success out ws
    | none => FileOutcome.failure

/-- Translation of `convert_single_sub_to_srt` (source lines 26-85) with its
two fallible environment interactions made explicit: `mkdir` is the result
of the `os.makedirs` call at line 37, which runs before the `try` block, so
its failure propagates out of the function; everything after it is the
guarded region. -/
def convert_single_sub_to_srt (mkdir : Except (List Char) Unit)
    (content : Except (List Char) (List Char)) : Except (List Char) FileOutcome :=
  match mkdir with
  | Except.error e => Except.error e
  | Except.ok _ => Except.ok (convert_body content)

/-- Translation of the loop of `batch_convert_sub_to_srt` (source lines
107-108): convert each file in turn; an exception escaping
`convert_single_sub_to_srt` aborts the whole batch. -/
def batch_convert_sub_to_srt (mkdir : Except (List Char) Unit) :
    List (Except (List Char) (List Char)) → Except (List Char) (List FileOutcome)
  | [] => Except.ok []
  | c :: rest =>
    match convert_single_sub_to_srt mkdir c with
    | Except.error e => Except.error e
    | Except.ok o =>
      match batch_convert_sub_to_srt mkdir rest with
      | Except.error e => Except.error e
      | Except.ok os => Except.ok (o :: os)

/-- State of the output file after one conversion of `content`, given its
previous state: on success the file is opened with mode `"w"` and
overwritten with the joined SRT text (source lines 79-80); on a raised
error the write is never reached and the previous state persists. -/
def output_file_after (content : List Char) (prev : Option (List Char)) : Option (List Char) :=
  match convert_sub_content content with
  | some (out, _) => some out
  | none => prev

/-- Extend the last piece of a non-empty list of pieces by a suffix (the
shape of a Python `split` after appending separator-free text). -/
def extendLast (suffix : List Char) : List (List Char) → List (List Char)
  | [] => [suffix]
  | [a] => [a ++ suffix]
  | a :: b :: rest => a :: extendLast suffix (b :: rest)

/-- Blocks of a concrete document whose middle block is malformed (no
newline): used to exhibit the index gap left by a skipped block. -/
def c6_blocks : List (List Char) :=
  [("0:0:1,0:0:2\na").toList, ("bad").toList, ("0:0:3,0:0:4\nb").toList]

/-- The two SRT blocks the converter renders for `c6_blocks`: indices 1 and
3, with index 2 skipped. -/
def c6_content : List (List Char) :=
  [("1\n0:0:1,000 --> 0:0:2,000\na\n").toList, ("3\n0:0:3,000 --> 0:0:4,000\nb\n").toList]

/-- The warning data the converter emits for `c6_blocks`. -/
def c6_warns : List (Nat × List Char) :=
  [(2, ("bad").toList)]

/-- Input of the end-to-end scenario of the spec: two blocks separated by
one blank line. -/
def c1_input : List Char :=
  ("00:00:01,00:00:03\nHello world\n\n00:00:05,00:00:07.250\nSecond line\n").toList

/-- Expected output of the end-to-end scenario of the spec. -/
def c1_expected : List Char :=
  ("1\n00:00:01,000 --> 00:00:03,000\nHello world\n\n2\n00:00:05,000 --> 00:00:07,250\nSecond line\n").toList

/-- C1: for the two-block end-to-end scenario input, the converter produces
exactly the expected SRT content: each block is index, `start --> end`
line, text, with one trailing newline per block and one blank line between
blocks, and no warnings are emitted. -/
theorem c1_end_to_end_scenario :
    convert_sub_content c1_input = some (c1_expected, []) := by
  decide

/-- A Python `split` never yields an empty list of pieces. -/
theorem pySplit_ne_nil (sep : Char) (l : List Char) : pySplit sep l ≠ [] := by
  cases l with
  | nil => simp [pySplit]
  | cons c rest =>
    simp only [pySplit]
    split
    · simp
    · split <;> simp

/-- Splitting a list that does not contain the separator gives the list
back as the single piece. -/
theorem pySplit_eq_single {sep : Char} {l : List Char} (h : sep ∉ l) :
    pySplit sep l = [l] := by
  induction l with
  | nil => rfl
  | cons c rest ih =>
    have hc : ¬ c = sep := fun e => h (by simp [e])
    have hrest : sep ∉ rest := fun m => h (by simp [m])
    simp [pySplit, hc, ih hrest]

/-- Splitting past a first separator not occurring in the prefix peels off
the prefix as the first piece. -/
theorem pySplit_append_sep {sep : Char} (a b : List Char) (h : sep ∉ a) :
    pySplit sep (a ++ sep :: b) = a :: pySplit sep b := by
  induction a with
  | nil => simp [pySplit]
  | cons c rest ih =>
    have hc : ¬ c = sep := fun e => h (by simp [e])
    have hrest : sep ∉ rest := fun m => h (by simp [m])
    simp [pySplit, hc, ih hrest]

/-- Appending separator-free text only extends the last piece of a split. -/
theorem pySplit_append_no_sep {sep : Char} (a b : List Char) (h : sep ∉ b) :
    pySplit sep (a ++ b) = extendLast b (pySplit sep a) := by
  induction a with
  | nil => simp [pySplit, extendLast, pySplit_eq_single h]
  | cons c rest ih =>
    by_cases hc : c = sep
    · cases e : pySplit sep rest with
      | nil => exact absurd e (pySplit_ne_nil sep rest)
      | cons p ps =>
        have h1 : pySplit sep (c :: (rest ++ b)) = [] :: pySplit sep (rest ++ b) := by
          simp [pySplit, hc]
        have h2 : pySplit sep (c :: rest) = [] :: pySplit sep rest := by
          simp [pySplit, hc]
        rw [List.cons_append, h1, ih, e, h2, e]
        rfl
    · cases e : pySplit sep rest with
      | nil => exact absurd e (pySplit_ne_nil sep rest)
      | cons p ps =>
        cases ps with
        | nil => simp [pySplit, hc, ih, e, extendLast]
        | cons q qs => simp [pySplit, hc, ih, e, extendLast]

/-- Extending the last piece never changes the number of pieces. -/
theorem extendLast_length (suffix : List Char) (l : List (List Char)) (h : l ≠ []) :
    (extendLast suffix l).length = l.length := by
  induction l with
  | nil => simp at h
  | cons a rest ih =>
    cases rest with
    | nil => simp [extendLast]
    | cons b bs =>
      have := ih (by simp)
      simp only [extendLast, List.length_cons] at this ⊢
      omega

/-- Every character of a piece of a split occurs in the split input. -/
theorem mem_of_mem_pySplit {sep : Char} {l p : List Char} (hp : p ∈ pySplit sep l)
    {ch : Char} (hch : ch ∈ p) : ch ∈ l := by
  induction l generalizing p with
  | nil =>
    simp [pySplit] at hp
    subst hp
    simp at hch
  | cons c rest ih =>
    by_cases hc : c = sep
    · subst hc
      simp only [pySplit, if_pos rfl] at hp
      rcases List.mem_cons.mp hp with rfl | hp
      · simp at hch
      · exact List.mem_cons_of_mem _ (ih hp hch)
    · cases e : pySplit sep rest with
      | nil => exact absurd e (pySplit_ne_nil sep rest)
      | cons q qs =>
        simp only [pySplit, if_neg hc, e] at hp
        rcases List.mem_cons.mp hp with rfl | hp
        · rcases List.mem_cons.mp hch with rfl | hch2
          · exact List.mem_cons_self _ _
          · exact List.mem_cons_of_mem _ (ih (by rw [e]; exact List.mem_cons_self _ _) hch2)
        · exact List.mem_cons_of_mem _ (ih (by rw [e]; exact List.mem_cons_of_mem _ hp) hch)

/-- A one-piece split can only come from a separator-free input. -/
theorem pySplit_eq_one {sep : Char} {l a : List Char} (h : pySplit sep l = [a]) :
    l = a ∧ sep ∉ a := by
  induction l generalizing a with
  | nil =>
    have h1 : ([] : List Char) = a := by
      have : ([[]] : List (List Char)) = [a] := h
      exact (List.cons.injEq _ _ _ _).mp this |>.1
    exact ⟨h1, by rw [← h1]; simp⟩
  | cons c rest ih =>
    by_cases hc : c = sep
    · have hrw : pySplit sep (c :: rest) = [] :: pySplit sep rest := by
        simp [pySplit, hc]
      rw [hrw] at h
      injection h with h1 h2
      exact absurd h2 (pySplit_ne_nil _ _)
    · cases e : pySplit sep rest with
      | nil => exact absurd e (pySplit_ne_nil sep rest)
      | cons p ps =>
        have hrw : pySplit sep (c :: rest) = (c :: p) :: ps := by
          simp [pySplit, hc, e]
        rw [hrw] at h
        injection h with h1 h2
        subst h2
        obtain ⟨hrest, hp⟩ := ih e
        subst hrest
        refine ⟨h1, ?_⟩
        intro hmem
        rw [← h1] at hmem
        rcases List.mem_cons.mp hmem with e2 | e2
        · exact hc e2.symm
        · exact hp e2

/-- A two-piece split comes exactly from one separator occurrence between
two separator-free pieces. -/
theorem pySplit_eq_pair {sep : Char} {l a b : List Char} (h : pySplit sep l = [a, b]) :
    l = a ++ sep :: b ∧ sep ∉ a ∧ sep ∉ b := by
  induction l generalizing a with
  | nil => simp [pySplit] at h
  | cons c rest ih =>
    by_cases hc : c = sep
    · have hrw : pySplit sep (c :: rest) = [] :: pySplit sep rest := by
        simp [pySplit, hc]
      rw [hrw] at h
      injection h with h1 h2
      obtain ⟨hrest, hb⟩ := pySplit_eq_one h2
      refine ⟨?_, ?_, hb⟩
      · rw [← h1]
        simp [hc, hrest]
      · rw [← h1]
        simp
    · cases e : pySplit sep rest with
      | nil => exact absurd e (pySplit_ne_nil sep rest)
      | cons p ps =>
        have hrw : pySplit sep (c :: rest) = (c :: p) :: ps := by
          simp [pySplit, hc, e]
        rw [hrw] at h
        injection h with h1 h2
        subst h2
        obtain ⟨hrest, hpa, hpb⟩ := ih e
        subst hrest
        refine ⟨?_, ?_, hpb⟩
        · rw [← h1]
          simp
        · rw [← h1]
          intro hmem
          rcases List.mem_cons.mp hmem with e2 | e2
          · exact hc e2.symm
          · exact hpa e2

/-- Taking while "not the separator" over separator-free input keeps it all. -/
theorem takeWhile_all {sep : Char} {l : List Char} (h : sep ∉ l) :
    l.takeWhile (fun c => c ≠ sep) = l := by
  induction l with
  | nil => rfl
  | cons c rest ih =>
    have hc : c ≠ sep := fun e => h (by simp [e])
    have hrest : sep ∉ rest := fun m => h (by simp [m])
    rw [@List.takeWhile_cons_of_pos _ (fun x => decide (x ≠ sep)) c rest (decide_eq_true hc), ih hrest]

/-- Dropping while "not the separator" over separator-free input drops it all. -/
theorem dropWhile_all {sep : Char} {l : List Char} (h : sep ∉ l) :
    l.dropWhile (fun c => c ≠ sep) = [] := by
  induction l with
  | nil => rfl
  | cons c rest ih =>
    have hc : c ≠ sep := fun e => h (by simp [e])
    have hrest : sep ∉ rest := fun m => h (by simp [m])
    rw [@List.dropWhile_cons_of_pos _ (fun x => decide (x ≠ sep)) c rest (decide_eq_true hc), ih hrest]

/-- Taking while "not the separator" stops exactly at the first separator. -/
theorem takeWhile_until_sep {sep : Char} (a b : List Char) (h : sep ∉ a) :
    (a ++ sep :: b).takeWhile (fun c => c ≠ sep) = a := by
  induction a with
  | nil => exact List.takeWhile_cons_of_neg (by simp)
  | cons c rest ih =>
    have hc : c ≠ sep := fun e => h (by simp [e])
    have hrest : sep ∉ rest := fun m => h (by simp [m])
    rw [List.cons_append, @List.takeWhile_cons_of_pos _ (fun x => decide (x ≠ sep)) c (rest ++ sep :: b) (decide_eq_true hc), ih hrest]

/-- Dropping while "not the separator" keeps the first separator onward. -/
theorem dropWhile_until_sep {sep : Char} (a b : List Char) (h : sep ∉ a) :
    (a ++ sep :: b).dropWhile (fun c => c ≠ sep) = sep :: b := by
  induction a with
  | nil => exact List.dropWhile_cons_of_neg (by simp)
  | cons c rest ih =>
    have hc : c ≠ sep := fun e => h (by simp [e])
    have hrest : sep ∉ rest := fun m => h (by simp [m])
    rw [List.cons_append, @List.dropWhile_cons_of_pos _ (fun x => decide (x ≠ sep)) c (rest ++ sep :: b) (decide_eq_true hc), ih hrest]

/-- A single-limit split of separator-free input gives one piece. -/
theorem pySplitOnce_not_mem {sep : Char} {l : List Char} (h : sep ∉ l) :
    pySplitOnce sep l = [l] := by
  unfold pySplitOnce
  rw [dropWhile_all h]
  show [l.takeWhile (fun c => c ≠ sep)] = [l]
  rw [takeWhile_all h]

/-- A single-limit split cuts at the first separator occurrence. -/
theorem pySplitOnce_append {sep : Char} (a b : List Char) (h : sep ∉ a) :
    pySplitOnce sep (a ++ sep :: b) = [a, b] := by
  unfold pySplitOnce
  rw [dropWhile_until_sep a b h]
  show [(a ++ sep :: b).takeWhile (fun c => c ≠ sep), b] = [a, b]
  rw [takeWhile_until_sep a b h]

/-- Any list containing the separator decomposes at its first occurrence,
with the separator-free prefix given by `takeWhile`. -/
theorem exists_split_first {sep : Char} {l : List Char} (h : sep ∈ l) :
    ∃ b2, l = l.takeWhile (fun c => c ≠ sep) ++ sep :: b2 ∧
      sep ∉ l.takeWhile (fun c => c ≠ sep) := by
  induction l with
  | nil => simp at h
  | cons c rest ih =>
    by_cases hc : c = sep
    · refine ⟨rest, ?_, ?_⟩
      · simp [List.takeWhile_cons, hc]
      · simp [List.takeWhile_cons, hc]
    · have hr : sep ∈ rest := by
        rcases List.mem_cons.mp h with e | e
        · exact absurd e.symm hc
        · exact e
      obtain ⟨b2, he, hn⟩ := ih hr
      have hcne : c ≠ sep := hc
      refine ⟨b2, ?_, ?_⟩
      · simp only [List.takeWhile_cons]
        rw [if_pos (by simp [hcne])]
        rw [List.cons_append]
        exact congrArg (c :: ·) he
      · simp only [List.takeWhile_cons]
        rw [if_pos (by simp [hcne])]
        intro hmem
        rcases List.mem_cons.mp hmem with e2 | e2
        · exact hcne e2.symm
        · exact hn e2

/-- The padded millisecond field always has exactly three characters. -/
theorem pyLjust_take3_length (ms : List Char) : (pyLjust 3 '0' (ms.take 3)).length = 3 := by
  simp only [pyLjust, List.length_append, List.length_replicate, List.length_take]
  omega

/-- Behaviour of the time formatter on input containing a `.`: the input is
split as such, and the seconds-and-fraction token must split on `.` into
exactly two pieces. -/
theorem format_time_str_dot {s : List Char} (h : '.' ∈ s) :
    format_time_str s =
      match pySplit ':' s with
      | [hh, mm, ss_ms] =>
        match pySplit '.' ss_ms with
        | [ss, ms] => some (hh ++ ':' :: (mm ++ ':' :: (ss ++ ',' :: pyLjust 3 '0' (ms.take 3))))
        | _ => none
      | _ => none := by
  simp only [format_time_str, if_pos h]

/-- Behaviour of the time formatter on input with no `.`: the defaulted
fraction `"0000000"` is appended, so only the `:`-triad split can fail, and
on success the milliseconds are `"000"`. -/
theorem format_time_str_no_dot {s : List Char} (h : '.' ∉ s) :
    format_time_str s =
      match pySplit ':' s with
      | [hh, mm, ss] => some (hh ++ ':' :: (mm ++ ':' :: (ss ++ [',', '0', '0', '0'])))
      | _ => none := by
  have hsf : ('.' : Char) ∉ (['0', '0', '0', '0', '0', '0', '0'] : List Char) := by decide
  have hstep : pySplit ':' (s ++ '.' :: ['0', '0', '0', '0', '0', '0', '0']) =
      extendLast ('.' :: ['0', '0', '0', '0', '0', '0', '0']) (pySplit ':' s) := by
    exact pySplit_append_no_sep s _ (by decide)
  simp only [format_time_str, if_neg h]
  rw [hstep]
  cases e : pySplit ':' s with
  | nil => exact absurd e (pySplit_ne_nil _ _)
  | cons p1 t1 =>
    cases t1 with
    | nil => rfl
    | cons p2 t2 =>
      cases t2 with
      | nil => rfl
      | cons p3 t3 =>
        cases t3 with
        | cons p4 t4 =>
          cases t4 with
          | nil => rfl
          | cons p5 t5 => rfl
        | nil =>
          have hdot3 : '.' ∉ p3 := by
            intro hm
            exact h (mem_of_mem_pySplit (by rw [e]; simp) hm)
          show (match pySplit '.' (p3 ++ '.' :: ['0', '0', '0', '0', '0', '0', '0']) with
            | [ss, ms] => some (p1 ++ ':' :: (p2 ++ ':' :: (ss ++ ',' :: pyLjust 3 '0' (ms.take 3))))
            | _ => none) = some (p1 ++ ':' :: (p2 ++ ':' :: (p3 ++ [',', '0', '0', '0'])))
          rw [pySplit_append_sep p3 _ hdot3, pySplit_eq_single hsf]
          rfl

/-- C2: every timestamp built from three `:`-separated components containing
no `.` (in particular every well-formed `HH:MM:SS` string) is formatted by
appending `",000"` in place of the missing fractional part. -/
theorem c2_no_fraction_appends_000 (hh mm ss : List Char)
    (hc1 : ':' ∉ hh) (hc2 : ':' ∉ mm) (hc3 : ':' ∉ ss)
    (hd1 : '.' ∉ hh) (hd2 : '.' ∉ mm) (hd3 : '.' ∉ ss) :
    format_time_str (hh ++ ':' :: (mm ++ ':' :: ss)) =
      some (hh ++ ':' :: (mm ++ ':' :: (ss ++ [',', '0', '0', '0']))) := by
  have hdot : '.' ∉ (hh ++ ':' :: (mm ++ ':' :: ss)) := by
    simp only [List.mem_append, List.mem_cons]
    push_neg
    exact ⟨hd1, by decide, hd2, by decide, hd3⟩
  rw [format_time_str_no_dot hdot]
  rw [pySplit_append_sep hh _ hc1, pySplit_append_sep mm _ hc2, pySplit_eq_single hc3]

/-- Witness for C2 at the spec's example input `"00:00:27"`. -/
theorem c2_no_fraction_appends_000_witness :
    format_time_str (("00:00:27").toList) = some (("00:00:27,000").toList) :=
  c2_no_fraction_appends_000 (("00").toList) (("00").toList) (("27").toList)
    (by decide) (by decide) (by decide) (by decide) (by decide) (by decide)

/-- C3: every timestamp of shape `HH:MM:SS.F` (components free of extra `:`
and `.`) is formatted by truncating `F` to its first three characters,
right-padding with `'0'` to length three, with no rounding. -/
theorem c3_fraction_truncated_padded (hh mm ss f : List Char)
    (hc1 : ':' ∉ hh) (hc2 : ':' ∉ mm) (hc3 : ':' ∉ ss) (hc4 : ':' ∉ f)
    (hd1 : '.' ∉ hh) (hd2 : '.' ∉ mm) (hd3 : '.' ∉ ss) (hd4 : '.' ∉ f) :
    format_time_str (hh ++ ':' :: (mm ++ ':' :: (ss ++ '.' :: f))) =
      some (hh ++ ':' :: (mm ++ ':' :: (ss ++ ',' ::
        (f.take 3 ++ List.replicate (3 - (f.take 3).length) '0')))) ∧
    (f.take 3 ++ List.replicate (3 - (f.take 3).length) '0').length = 3 := by
  constructor
  · have hdot : '.' ∈ (hh ++ ':' :: (mm ++ ':' :: (ss ++ '.' :: f))) := by
      simp
    rw [format_time_str_dot hdot]
    have hcsf : ':' ∉ (ss ++ '.' :: f) := by
      simp only [List.mem_append, List.mem_cons]
      push_neg
      exact ⟨hc3, by decide, hc4⟩
    rw [pySplit_append_sep hh _ hc1, pySplit_append_sep mm _ hc2, pySplit_eq_single hcsf]
    show (match pySplit '.' (ss ++ '.' :: f) with
      | [s1, ms] => some (hh ++ ':' :: (mm ++ ':' :: (s1 ++ ',' :: pyLjust 3 '0' (ms.take 3))))
      | _ => none) = _
    rw [pySplit_append_sep ss _ hd3, pySplit_eq_single hd4]
    rfl
  · exact pyLjust_take3_length f

/-- Witness for C3 at the spec's three example inputs. -/
theorem c3_fraction_truncated_padded_witness :
    format_time_str (("00:00:11.5000000").toList) = some (("00:00:11,500").toList) ∧
    format_time_str (("00:00:11.9").toList) = some (("00:00:11,900").toList) ∧
    format_time_str (("00:00:11.12").toList) = some (("00:00:11,120").toList) :=
  ⟨(c3_fraction_truncated_padded (("00").toList) (("00").toList) (("11").toList)
      (("5000000").toList) (by decide) (by decide) (by decide) (by decide)
      (by decide) (by decide) (by decide) (by decide)).1,
   (c3_fraction_truncated_padded (("00").toList) (("00").toList) (("11").toList)
      (("9").toList) (by decide) (by decide) (by decide) (by decide)
      (by decide) (by decide) (by decide) (by decide)).1,
   (c3_fraction_truncated_padded (("00").toList) (("00").toList) (("11").toList)
      (("12").toList) (by decide) (by decide) (by decide) (by decide)
      (by decide) (by decide) (by decide) (by decide)).1⟩

/-- A block with no newline is handled by the warning-and-skip branch. -/
theorem parseBlock_skip_of_no_newline (idx : Nat) (b : List Char) (h : '\n' ∉ b) :
    parseBlock idx b = BlockResult.skip := by
  simp [parseBlock, pySplitOnce_not_mem h]

/-- A block satisfying `blockFails` makes the loop body raise. -/
theorem parseBlock_fail_of_blockFails (idx : Nat) (b : List Char) (hf : blockFails b) :
    parseBlock idx b = BlockResult.fail := by
  obtain ⟨hn, hfmt⟩ := hf
  obtain ⟨b2, hb2, hfree⟩ := exists_split_first hn
  have hsplit : pySplitOnce '\n' b = [b.takeWhile (fun c => c ≠ '\n'), b2] := by
    conv_lhs => rw [hb2]
    exact pySplitOnce_append _ _ hfree
  simp only [parseBlock, hsplit]
  cases e : pySplit ',' (b.takeWhile (fun c => c ≠ '\n')) with
  | nil => rfl
  | cons t1 ts =>
    cases ts with
    | nil => rfl
    | cons t2 ts2 =>
      cases ts2 with
      | cons t3 ts3 => rfl
      | nil =>
        show (match format_time_str (pyStrip t1), format_time_str (pyStrip t2) with
          | some start_srt, some end_srt =>
            BlockResult.ok
              (natToChars idx ++ '\n' ::
                (start_srt ++ ' ' :: '-' :: '-' :: '>' :: ' ' ::
                  (end_srt ++ '\n' :: (pyStrip b2 ++ ['\n']))))
          | _, _ => BlockResult.fail) = BlockResult.fail
        rcases hfmt t1 t2 e with h1 | h1
        · rw [h1]
        · rw [h1]
          cases e2 : format_time_str (pyStrip t1) <;> rfl

/-- If any block of the document satisfies `blockFails`, processing the
whole block list raises, whatever the other blocks look like. -/
theorem processBlocks_none_of_mem_blockFails (b : List Char) (hf : blockFails b) :
    ∀ (blocks : List (List Char)) (idx : Nat), b ∈ blocks → processBlocks idx blocks = none := by
  intro blocks
  induction blocks with
  | nil =>
    intro idx h
    simp at h
  | cons hd tl ih =>
    intro idx hmem
    rcases List.mem_cons.mp hmem with rfl | hmem
    · simp [processBlocks, parseBlock_fail_of_blockFails idx b hf]
    · have hrec := ih (idx + 1) hmem
      cases hpb : parseBlock idx hd with
      | ok srt => simp [processBlocks, hpb, hrec]
      | skip => simp [processBlocks, hpb, hrec]
      | fail => simp [processBlocks, hpb]

/-- C5: a block segment containing no newline is skipped: a warning carrying
its 1-based index and the first 50 characters of its content is recorded,
no SRT entry is produced for it, and processing continues with the
remaining blocks at the next index, preserving success or failure of the
rest of the file. -/
theorem c5_malformed_block_skipped (idx : Nat) (b : List Char) (rest : List (List Char))
    (h : '\n' ∉ b) :
    processBlocks idx (b :: rest) =
      (processBlocks (idx + 1) rest).map (fun cw => (cw.1, (idx, b.take 50) :: cw.2)) := by
  have hs : parseBlock idx b = BlockResult.skip := parseBlock_skip_of_no_newline idx b h
  cases hr : processBlocks (idx + 1) rest with
  | none => simp [processBlocks, hs, hr]
  | some cw =>
    cases cw with
    | mk cs ws => simp [processBlocks, hs, hr]

/-- Witness for C5 on a concrete malformed block followed by a good block. -/
theorem c5_malformed_block_skipped_witness :
    processBlocks 1 ((("hello").toList) :: [("0:0:1,0:0:2\nx").toList]) =
      (processBlocks 2 [("0:0:1,0:0:2\nx").toList]).map
        (fun cw => (cw.1, (1, (("hello").toList).take 50) :: cw.2)) :=
  c5_malformed_block_skipped 1 (("hello").toList) [("0:0:1,0:0:2\nx").toList] (by decide)

/-- C7: a document containing a block whose time line does not split on `,`
into exactly two tokens makes the whole file conversion fail: the exception
escapes the loop and the output-producing path yields nothing. -/
theorem c7_bad_comma_fails_file (content : List Char) (b : List Char)
    (hb : b ∈ subtitle_blocks content) (hn : '\n' ∈ b)
    (hc : (pySplit ',' (timeLine b)).length ≠ 2) :
    convert_sub_content content = none := by
  have hf : blockFails b := by
    refine ⟨hn, fun t1 t2 he => absurd ?_ hc⟩
    rw [he]
    rfl
  unfold convert_sub_content
  rw [processBlocks_none_of_mem_blockFails b hf _ 1 hb]

/-- Witness for C7 on a concrete one-block document whose time line has no
comma. -/
theorem c7_bad_comma_fails_file_witness :
    convert_sub_content (("0:0:1\nx").toList) = none :=
  c7_bad_comma_fails_file (("0:0:1\nx").toList) (("0:0:1\nx").toList)
    (by decide) (by decide) (by decide)

/-- No decimal digit character is a newline. -/
theorem digitChar_ne_newline (d : Nat) : Nat.digitChar d ≠ '\n' := by
  by_cases h16 : d < 16
  · interval_cases d <;> decide
  · have hd0 : d ≠ 0 := by omega
    have hd1 : d ≠ 1 := by omega
    have hd2 : d ≠ 2 := by omega
    have hd3 : d ≠ 3 := by omega
    have hd4 : d ≠ 4 := by omega
    have hd5 : d ≠ 5 := by omega
    have hd6 : d ≠ 6 := by omega
    have hd7 : d ≠ 7 := by omega
    have hd8 : d ≠ 8 := by omega
    have hd9 : d ≠ 9 := by omega
    have hd10 : d ≠ 10 := by omega
    have hd11 : d ≠ 11 := by omega
    have hd12 : d ≠ 12 := by omega
    have hd13 : d ≠ 13 := by omega
    have hd14 : d ≠ 14 := by omega
    have hd15 : d ≠ 15 := by omega
    simp [Nat.digitChar, hd0, hd1, hd2, hd3, hd4, hd5, hd6, hd7, hd8, hd9,
      hd10, hd11, hd12, hd13, hd14, hd15]

/-- The digit accumulator of `Nat.toDigits` only ever adds digit characters,
so it never introduces a newline. -/
theorem toDigitsCore_ne_newline :
    ∀ (fuel n : Nat) (acc : List Char), (∀ c ∈ acc, c ≠ '\n') →
      ∀ c ∈ Nat.toDigitsCore 10 fuel n acc, c ≠ '\n' := by
  intro fuel
  induction fuel with
  | zero =>
    intro n acc hacc c hc
    exact hacc c hc
  | succ f ih =>
    intro n acc hacc c hc
    simp only [Nat.toDigitsCore] at hc
    split at hc
    · rcases List.mem_cons.mp hc with rfl | hmem
      · exact digitChar_ne_newline _
      · exact hacc c hmem
    · refine ih (n / 10) (Nat.digitChar (n % 10) :: acc) ?_ c hc
      intro x hx
      rcases List.mem_cons.mp hx with rfl | hmem
      · exact digitChar_ne_newline _
      · exact hacc x hmem

/-- The decimal rendering of a natural number contains no newline. -/
theorem newline_not_mem_natToChars (n : Nat) : '\n' ∉ natToChars n := by
  intro hmem
  exact toDigitsCore_ne_newline (n + 1) n [] (by simp) '\n' hmem rfl

/-- The first line of a rendered SRT block is its decimal index. -/
theorem blockIndexLine_render (idx : Nat) (z : List Char) :
    blockIndexLine (natToChars idx ++ '\n' :: z) = natToChars idx := by
  unfold blockIndexLine
  exact takeWhile_until_sep _ _ (newline_not_mem_natToChars idx)

/-- A successfully rendered block contains a newline and its rendering
starts with the decimal index of its position followed by a newline. -/
theorem parseBlock_ok_structure (idx : Nat) (b : List Char) (srt : List Char)
    (h : parseBlock idx b = BlockResult.ok srt) :
    '\n' ∈ b ∧ ∃ z, srt = natToChars idx ++ '\n' :: z := by
  by_cases hn : '\n' ∈ b
  · refine ⟨hn, ?_⟩
    obtain ⟨b2, hb2, hfree⟩ := exists_split_first hn
    have hsplit : pySplitOnce '\n' b = [b.takeWhile (fun c => c ≠ '\n'), b2] := by
      conv_lhs => rw [hb2]
      exact pySplitOnce_append _ _ hfree
    simp only [parseBlock, hsplit] at h
    cases e : pySplit ',' (b.takeWhile (fun c => c ≠ '\n')) with
    | nil => rw [e] at h; exact BlockResult.noConfusion h
    | cons t1 ts =>
      cases ts with
      | nil => rw [e] at h; exact BlockResult.noConfusion h
      | cons t2 ts2 =>
        cases ts2 with
        | cons t3 ts3 => rw [e] at h; exact BlockResult.noConfusion h
        | nil =>
          rw [e] at h
          have h2 : (match format_time_str (pyStrip t1), format_time_str (pyStrip t2) with
            | some start_srt, some end_srt =>
              BlockResult.ok
                (natToChars idx ++ '\n' ::
                  (start_srt ++ ' ' :: '-' :: '-' :: '>' :: ' ' ::
                    (end_srt ++ '\n' :: (pyStrip b2 ++ ['\n']))))
            | _, _ => BlockResult.fail) = BlockResult.ok srt := h
          cases e1 : format_time_str (pyStrip t1) with
          | none => rw [e1] at h2; exact BlockResult.noConfusion h2
          | some v1 =>
            cases e2 : format_time_str (pyStrip t2) with
            | none => rw [e1, e2] at h2; exact BlockResult.noConfusion h2
            | some v2 =>
              rw [e1, e2] at h2
              refine ⟨v1 ++ ' ' :: '-' :: '-' :: '>' :: ' ' ::
                (v2 ++ '\n' :: (pyStrip b2 ++ ['\n'])), ?_⟩
              injection h2 with h3
              exact h3.symm
  · rw [parseBlock_skip_of_no_newline idx b hn] at h
    exact BlockResult.noConfusion h

/-- A skipped block contains no newline. -/
theorem no_newline_of_parseBlock_skip (idx : Nat) (b : List Char)
    (h : parseBlock idx b = BlockResult.skip) : '\n' ∉ b := by
  intro hn
  obtain ⟨b2, hb2, hfree⟩ := exists_split_first hn
  have hsplit : pySplitOnce '\n' b = [b.takeWhile (fun c => c ≠ '\n'), b2] := by
    conv_lhs => rw [hb2]
    exact pySplitOnce_append _ _ hfree
  simp only [parseBlock, hsplit] at h
  cases e : pySplit ',' (b.takeWhile (fun c => c ≠ '\n')) with
  | nil => rw [e] at h; exact BlockResult.noConfusion h
  | cons t1 ts =>
    cases ts with
    | nil => rw [e] at h; exact BlockResult.noConfusion h
    | cons t2 ts2 =>
      cases ts2 with
      | cons t3 ts3 => rw [e] at h; exact BlockResult.noConfusion h
      | nil =>
        rw [e] at h
        have h2 : (match format_time_str (pyStrip t1), format_time_str (pyStrip t2) with
          | some start_srt, some end_srt =>
            BlockResult.ok
              (natToChars idx ++ '\n' ::
                (start_srt ++ ' ' :: '-' :: '-' :: '>' :: ' ' ::
                  (end_srt ++ '\n' :: (pyStrip b2 ++ ['\n']))))
          | _, _ => BlockResult.fail) = BlockResult.skip := h
        cases e1 : format_time_str (pyStrip t1) with
        | none => rw [e1] at h2; exact BlockResult.noConfusion h2
        | some v1 =>
          cases e2 : format_time_str (pyStrip t2) with
          | none => rw [e1, e2] at h2; exact BlockResult.noConfusion h2
          | some v2 => rw [e1, e2] at h2; exact BlockResult.noConfusion h2

/-- Every element of `survivingIndices idx blocks` is at least `idx`. -/
theorem survivingIndices_lb : ∀ (blocks : List (List Char)) (idx x : Nat),
    x ∈ survivingIndices idx blocks → idx ≤ x := by
  intro blocks
  induction blocks with
  | nil =>
    intro idx x h
    simp [survivingIndices] at h
  | cons hd tl ih =>
    intro idx x h
    simp only [survivingIndices] at h
    split at h
    · rcases List.mem_cons.mp h with rfl | hmem
      · exact Nat.le_refl x
      · exact Nat.le_of_succ_le (ih (idx + 1) x hmem)
    · exact Nat.le_of_succ_le (ih (idx + 1) x h)

/-- The surviving indices are strictly increasing. -/
theorem survivingIndices_pairwise : ∀ (blocks : List (List Char)) (idx : Nat),
    List.Pairwise (· < ·) (survivingIndices idx blocks) := by
  intro blocks
  induction blocks with
  | nil =>
    intro idx
    simp [survivingIndices]
  | cons hd tl ih =>
    intro idx
    simp only [survivingIndices]
    split
    · refine List.pairwise_cons.mpr ⟨?_, ih (idx + 1)⟩
      intro x hx
      exact Nat.lt_of_lt_of_le (Nat.lt_succ_self idx) (survivingIndices_lb tl (idx + 1) x hx)
    · exact ih (idx + 1)

/-- On success, the first lines of the emitted SRT blocks are exactly the
decimal renderings of the original 1-based positions of the non-skipped
blocks, in input order. -/
theorem processBlocks_index_lines : ∀ (blocks : List (List Char)) (idx : Nat)
    (cs : List (List Char)) (ws : List (Nat × List Char)),
    processBlocks idx blocks = some (cs, ws) →
    cs.map blockIndexLine = (survivingIndices idx blocks).map natToChars := by
  intro blocks
  induction blocks with
  | nil =>
    intro idx cs ws h
    simp only [processBlocks, Option.some.injEq, Prod.mk.injEq] at h
    obtain ⟨h1, h2⟩ := h
    subst h1
    simp [survivingIndices]
  | cons hd tl ih =>
    intro idx cs ws h
    simp only [processBlocks] at h
    cases hpb : parseBlock idx hd with
    | ok srt =>
      rw [hpb] at h
      cases hr : processBlocks (idx + 1) tl with
      | none => rw [hr] at h; exact Option.noConfusion h
      | some cw =>
        obtain ⟨cs0, ws0⟩ := cw
        rw [hr] at h
        simp only [Option.some.injEq, Prod.mk.injEq] at h
        obtain ⟨h1, h2⟩ := h
        subst h1
        obtain ⟨hn, z, hz⟩ := parseBlock_ok_structure idx hd srt hpb
        simp only [List.map_cons, survivingIndices, if_pos hn]
        rw [hz, blockIndexLine_render, ih (idx + 1) cs0 ws0 hr]
    | skip =>
      rw [hpb] at h
      cases hr : processBlocks (idx + 1) tl with
      | none => rw [hr] at h; exact Option.noConfusion h
      | some cw =>
        obtain ⟨cs0, ws0⟩ := cw
        rw [hr] at h
        simp only [Option.some.injEq, Prod.mk.injEq] at h
        obtain ⟨h1, h2⟩ := h
        subst h1
        have hn : '\n' ∉ hd := no_newline_of_parseBlock_skip idx hd hpb
        simp only [survivingIndices, if_neg hn]
        exact ih (idx + 1) cs0 ws0 hr
    | fail =>
      rw [hpb] at h
      exact Option.noConfusion h

/-- C6: on a successful conversion, each emitted SRT block carries as its
index its original 1-based position in the blank-line-split sequence, skips
do not renumber later blocks, and the emitted indices are strictly
increasing and ordered as in the input. -/
theorem c6_indices_original_and_increasing (blocks : List (List Char))
    (cs : List (List Char)) (ws : List (Nat × List Char))
    (h : processBlocks 1 blocks = some (cs, ws)) :
    cs.map blockIndexLine = (survivingIndices 1 blocks).map natToChars ∧
    List.Pairwise (· < ·) (survivingIndices 1 blocks) :=
  ⟨processBlocks_index_lines blocks 1 cs ws h, survivingIndices_pairwise blocks 1⟩

/-- Witness for C6 on a document whose middle block is skipped: the output
indices are 1 and 3 with a gap at 2. -/
theorem c6_indices_original_and_increasing_witness :
    c6_content.map blockIndexLine = (survivingIndices 1 c6_blocks).map natToChars ∧
    List.Pairwise (· < ·) (survivingIndices 1 c6_blocks) :=
  c6_indices_original_and_increasing c6_blocks c6_content c6_warns (by decide)

/-- Counterexample to C4 as stated: `"00:00:11.5.5"` splits into exactly
three `:`-parts, yet the formatter raises; moreover for a document whose
time token is such a string the error surfaces as a whole-file failure
(`none`), not as a block-level skip. -/
theorem c4_counterexample :
    (pySplit ':' (("00:00:11.5.5").toList)).length = 3 ∧
    format_time_str (("00:00:11.5.5").toList) = none ∧
    convert_sub_content (("00:00:11.5.5,00:00:12\nx").toList) = none := by
  decide

/-- C4 (amended): the formatter never validates or pads the
hour/minute/second components — on success they appear verbatim in the
output — and it raises exactly when the string does not split into exactly
three `:`-parts, or contains a `.` while its final `:`-part does not
contain exactly one `.`; such an error is surfaced by the caller as a
whole-file failure. -/
theorem c4_error_iff_and_verbatim (s : List Char) :
    (format_time_str s = none ↔
      ¬((pySplit ':' s).length = 3 ∧
        ('.' ∈ s → (pySplit '.' ((pySplit ':' s).getLastD [])).length = 2))) ∧
    (∀ out, format_time_str s = some out →
      ∃ hh mm rest ms3, pySplit ':' s = [hh, mm, rest] ∧ ms3.length = 3 ∧
        out = hh ++ ':' :: (mm ++ ':' :: (rest.takeWhile (fun c => c ≠ '.') ++ ',' :: ms3))) ∧
    (∀ content b e2, b ∈ subtitle_blocks content → '\n' ∈ b →
      pySplit ',' (timeLine b) = [s, e2] →
      format_time_str (pyStrip s) = none →
      convert_sub_content content = none) := by
  refine ⟨?_, ?_, ?_⟩
  · by_cases hdot : '.' ∈ s
    · rw [format_time_str_dot hdot]
      cases e : pySplit ':' s with
      | nil => exact absurd e (pySplit_ne_nil _ _)
      | cons p1 t1 =>
        cases t1 with
        | nil => simp [hdot]
        | cons p2 t2 =>
          cases t2 with
          | nil => simp [hdot]
          | cons p3 t3 =>
            cases t3 with
            | cons p4 t4 => simp [hdot]
            | nil =>
              cases e3 : pySplit '.' p3 with
              | nil => exact absurd e3 (pySplit_ne_nil _ _)
              | cons q1 qs =>
                cases qs with
                | nil => simp [hdot, List.getLastD, e3]
                | cons q2 qs2 =>
                  cases qs2 with
                  | cons q3 qs3 => simp [hdot, List.getLastD, e3]
                  | nil => simp [hdot, List.getLastD, e3]
    · rw [format_time_str_no_dot hdot]
      cases e : pySplit ':' s with
      | nil => exact absurd e (pySplit_ne_nil _ _)
      | cons p1 t1 =>
        cases t1 with
        | nil => simp [hdot]
        | cons p2 t2 =>
          cases t2 with
          | nil => simp [hdot]
          | cons p3 t3 =>
            cases t3 with
            | cons p4 t4 => simp [hdot]
            | nil => simp [hdot]
  · by_cases hdot : '.' ∈ s
    · rw [format_time_str_dot hdot]
      cases e : pySplit ':' s with
      | nil => exact absurd e (pySplit_ne_nil _ _)
      | cons p1 t1 =>
        cases t1 with
        | nil => intro out hout; exact Option.noConfusion hout
        | cons p2 t2 =>
          cases t2 with
          | nil => intro out hout; exact Option.noConfusion hout
          | cons p3 t3 =>
            cases t3 with
            | cons p4 t4 => intro out hout; exact Option.noConfusion hout
            | nil =>
              intro out hout
              have hout2 : (match pySplit '.' p3 with
                | [ss, ms] => some (p1 ++ ':' :: (p2 ++ ':' ::
                    (ss ++ ',' :: pyLjust 3 '0' (ms.take 3))))
                | _ => none) = some out := hout
              cases e3 : pySplit '.' p3 with
              | nil => exact absurd e3 (pySplit_ne_nil _ _)
              | cons q1 qs =>
                cases qs with
                | nil => rw [e3] at hout2; exact Option.noConfusion hout2
                | cons q2 qs2 =>
                  cases qs2 with
                  | cons q3 qs3 => rw [e3] at hout2; exact Option.noConfusion hout2
                  | nil =>
                    rw [e3] at hout2
                    have hout3 : (some (p1 ++ ':' :: (p2 ++ ':' ::
                        (q1 ++ ',' :: pyLjust 3 '0' (q2.take 3)))) : Option (List Char))
                        = some out := hout2
                    injection hout3 with hX
                    obtain ⟨hp3, hq1, hq2⟩ := pySplit_eq_pair e3
                    refine ⟨p1, p2, p3, pyLjust 3 '0' (q2.take 3), rfl,
                      pyLjust_take3_length q2, ?_⟩
                    rw [← hX, hp3, takeWhile_until_sep q1 q2 hq1]
    · rw [format_time_str_no_dot hdot]
      cases e : pySplit ':' s with
      | nil => exact absurd e (pySplit_ne_nil _ _)
      | cons p1 t1 =>
        cases t1 with
        | nil => intro out hout; exact Option.noConfusion hout
        | cons p2 t2 =>
          cases t2 with
          | nil => intro out hout; exact Option.noConfusion hout
          | cons p3 t3 =>
            cases t3 with
            | cons p4 t4 => intro out hout; exact Option.noConfusion hout
            | nil =>
              intro out hout
              have hout2 : (some (p1 ++ ':' :: (p2 ++ ':' ::
                  (p3 ++ [',', '0', '0', '0']))) : Option (List Char)) = some out := hout
              injection hout2 with hX
              have hdot3 : '.' ∉ p3 := by
                intro hm
                exact hdot (mem_of_mem_pySplit (by rw [e]; simp) hm)
              refine ⟨p1, p2, p3, ['0', '0', '0'], rfl, rfl, ?_⟩
              rw [← hX, takeWhile_all hdot3]
  · intro content b e2 hb hn hsplit hfmt
    have hf : blockFails b := by
      refine ⟨hn, fun u1 u2 he => ?_⟩
      have heq : ([s, e2] : List (List Char)) = [u1, u2] := hsplit.symm.trans he
      injection heq with heq1 heq2
      injection heq2 with heq3 heq4
      subst heq1
      exact Or.inl hfmt
    unfold convert_sub_content
    rw [processBlocks_none_of_mem_blockFails b hf _ 1 hb]

/-- Witness for the amended C4: the formatter error on `"0.0:00:27"`
(three `:`-parts, but its last part has no `.` while the string has one)
propagates to a whole-file failure of a concrete document. -/
theorem c4_error_iff_and_verbatim_witness :
    convert_sub_content (("0.0:00:27,00:00:28\nx").toList) = none :=
  (c4_error_iff_and_verbatim (("0.0:00:27").toList)).2.2
    (("0.0:00:27,00:00:28\nx").toList) (("0.0:00:27,00:00:28\nx").toList)
    (("00:00:28").toList) (by decide) (by decide) (by decide) (by decide)

/-- Counterexample to C8 as stated: a failing output-directory creation
(which the source performs before entering its `try` block) propagates out
of the converter, and aborts the remaining files of the batch. -/
theorem c8_counterexample :
    convert_single_sub_to_srt (Except.error (("boom").toList))
        (Except.ok (("a,b\nx").toList)) = Except.error (("boom").toList) ∧
    batch_convert_sub_to_srt (Except.error (("boom").toList))
        [Except.ok (("0:0:1,0:0:2\nx").toList), Except.ok (("0:0:3,0:0:4\ny").toList)] =
      Except.error (("boom").toList) := by
  constructor <;> rfl

/-- C8 (amended): when output-directory creation succeeds (or is not needed),
the converter never raises past its boundary — every failure inside the
guarded region becomes a reported per-file outcome — so the batch processes
every file and each file's outcome depends only on that file's content. -/
theorem c8_guarded_batch_never_raises (files : List (Except (List Char) (List Char))) :
    batch_convert_sub_to_srt (Except.ok ()) files = Except.ok (files.map convert_body) := by
  induction files with
  | nil => rfl
  | cons f rest ih =>
    simp [batch_convert_sub_to_srt, convert_single_sub_to_srt, ih]

/-- C9: converting the same content a second time leaves the output file in
the same state as after the first conversion: on success the file is
overwritten (not appended) with the same deterministic text, and on failure
no write happens at all. -/
theorem c9_second_run_identical (content : List Char) (prev : Option (List Char)) :
    output_file_after content (output_file_after content prev) =
      output_file_after content prev := by
  unfold output_file_after
  cases h : convert_sub_content content with
  | none => rfl
  | some cw =>
    cases cw with
    | mk o w => rfl

/-- If every block of the document is skipped, processing succeeds with no
rendered blocks and one warning per block. -/
theorem processBlocks_all_skipped : ∀ (blocks : List (List Char)) (idx : Nat),
    (∀ b ∈ blocks, '\n' ∉ b) → ∃ ws, processBlocks idx blocks = some ([], ws) := by
  intro blocks
  induction blocks with
  | nil =>
    intro idx h
    exact ⟨[], rfl⟩
  | cons hd tl ih =>
    intro idx h
    obtain ⟨ws, hws⟩ := ih (idx + 1) (fun b hb => h b (List.mem_cons_of_mem _ hb))
    refine ⟨(idx, hd.take 50) :: ws, ?_⟩
    simp [processBlocks, parseBlock_skip_of_no_newline idx hd (h hd (List.mem_cons_self _ _)),
      hws]

/-- C10: for content with no usable block — no non-whitespace block at all,
or every block malformed and skipped — the conversion still succeeds, the
output file is written with empty content, and a success outcome is
reported. -/
theorem c10_all_blocks_skipped_empty_success (content : List Char)
    (h : ∀ b ∈ subtitle_blocks content, '\n' ∉ b) :
    ∃ ws, convert_sub_content content = some ([], ws) ∧
      convert_body (Except.ok content) = FileOutcome.success [] ws ∧
      (∀ prev, output_file_after content prev = some []) := by
  obtain ⟨ws, hws⟩ := processBlocks_all_skipped (subtitle_blocks content) 1 h
  have h1 : convert_sub_content content = some ([], ws) := by
    unfold convert_sub_content
    rw [hws]
    rfl
  refine ⟨ws, h1, ?_, ?_⟩
  · show (match convert_sub_content content with
      | some (out, ws) => FileOutcome.success out ws
      | none => FileOutcome.failure) = FileOutcome.success [] ws
    rw [h1]
  · intro prev
    unfold output_file_after
    rw [h1]

/-- Witness for C10 on the one-block document `"hello"` (no newline in its
only block): empty output text and a success outcome. -/
theorem c10_all_blocks_skipped_empty_success_witness :
    ∃ ws, convert_sub_content (("hello").toList) = some ([], ws) ∧
      convert_body (Except.ok (("hello").toList)) = FileOutcome.success [] ws ∧
      (∀ prev, output_file_after (("hello").toList) prev = some []) :=
  c10_all_blocks_skipped_empty_success (("hello").toList) (by decide)
